import Mathlib

/-!
Verification of the Pages multi-tenant static-site host.

This file gives a shallow embedding of the core path handling, archive
extraction, atomic directory swap, site registry, lock-free resolver and
checkpoint manager of the repository, and proves or refutes the frozen
claims about them.  Each Go function is translated into an executable
Lean definition; filesystem effects are modelled by explicit state
records, and Go `filepath` string manipulation is re-implemented by
structural recursion over character lists so that every definition
evaluates inside the kernel.
-/

namespace Pages

/-! ## Go `strings` / `path/filepath` toolkit

All functions operate on Unix path semantics (separator `/`, list
separator `:`), which is what the deployed server uses.
-/

/-- Split a character list at every occurrence of `sep`.  Character-level
model of Go `strings.Split`; the result always has at least one
(possibly empty) group. -/
def splitChars (sep : Char) : List Char → List (List Char)
  | [] => [[]]
  | c :: rest =>
    match splitChars sep rest with
    | [] => [[c]]
    | g :: gs => if c = sep then [] :: g :: gs else (c :: g) :: gs

/-- The raw `/`-separated components of a path string. -/
def pathComponentsRaw (s : String) : List String :=
  (splitChars '/' s.toList).map String.mk

/-- Go `filepath.IsAbs` on Unix: the path starts with `/`. -/
def goIsAbs (s : String) : Bool :=
  match s.toList with
  | '/' :: _ => true
  | _ => false

/-- One element-processing step of Go `filepath.Clean` (Unix).  The
accumulator holds the cleaned components in reverse order.  Empty and
`.` components are dropped; `..` pops the previous component, is dropped
at the root of a rooted path, and is kept at the front of a relative
path. -/
def cleanFold (rooted : Bool) (acc : List String) (c : String) : List String :=
  if c = "" ∨ c = "." then acc
  else if c = ".." then
    match acc with
    | [] => if rooted then [] else [".."]
    | top :: rest => if top = ".." then ".." :: top :: rest else rest
  else c :: acc

/-- The cleaned form of a path: whether it is rooted, and its canonical
component list (no `""`, no `"."`, and `".."` only at the front of a
relative path).  `goClean` renders this back to a string. -/
def cleanParts (s : String) : Bool × List String :=
  (goIsAbs s, ((pathComponentsRaw s).foldl (cleanFold (goIsAbs s)) []).reverse)

/-- Join components with `/` (no leading separator). -/
def joinComps : List String → String
  | [] => ""
  | [c] => c
  | c :: c' :: cs => c ++ "/" ++ joinComps (c' :: cs)

/-- Render a cleaned path: rooted paths get a leading `/` (`/` itself for
no components), a relative path with no components is `"."`. -/
def renderPath (rooted : Bool) (comps : List String) : String :=
  if rooted then "/" ++ joinComps comps
  else if comps = [] then "." else joinComps comps

/-- Go `filepath.Clean` (Unix semantics). -/
def goClean (s : String) : String :=
  renderPath (cleanParts s).1 (cleanParts s).2

/-- Go `filepath.Join` of two elements: empty elements are skipped and
the result is cleaned; all-empty input yields `""`. -/
def goJoin2 (a b : String) : String :=
  if a = "" then (if b = "" then "" else goClean b)
  else if b = "" then goClean a
  else goClean (a ++ "/" ++ b)

/-- Go `filepath.Join` of a list of elements. -/
def goJoinList (elems : List String) : String :=
  match elems.filter (fun e => e ≠ "") with
  | [] => ""
  | e :: es => goClean (joinComps (e :: es))

/-- Go `filepath.Dir`: everything before the final separator, cleaned;
`"."` when the path has no separator. -/
def goDir (p : String) : String :=
  let parts := pathComponentsRaw p
  if parts.length ≤ 1 then "."
  else goClean (joinComps parts.dropLast ++ "/")

/-- Drop the longest common prefix of two component lists, returning the
two remainders.  Used by `goRel`. -/
def dropCommonPrefix : List String → List String → List String × List String
  | a :: as, b :: bs =>
    if a = b then dropCommonPrefix as bs else (a :: as, b :: bs)
  | as, bs => (as, bs)

/-- Go `filepath.Rel(base, targ)` (Unix): both paths are cleaned; equal
paths give `"."`; mixing absolute and relative is an error; otherwise
the common component prefix is dropped and each remaining base component
contributes one `".."`.  A remaining leading `".."` in the base is an
error.  (The Go error message interpolates both paths; only whether an
error occurred matters to callers here.) -/
def goRel (base targ : String) : Except String String :=
  let b := cleanParts base
  let t := cleanParts targ
  if b = t then .ok "."
  else if b.1 ≠ t.1 then .error "Rel: cannot make target relative to base"
  else
    let rems := dropCommonPrefix b.2 t.2
    match rems.1 with
    | ".." :: _ => .error "Rel: cannot make target relative to base"
    | brem =>
      .ok (joinComps (List.replicate brem.length ".." ++ rems.2))

/-- Go `filepath.SplitList` (Unix): split on the list separator `:`;
the empty string gives an empty list.  (This is the function
`isPathTraversal` in `extract.go` actually calls.) -/
def goSplitList (s : String) : List String :=
  if s = "" then [] else (splitChars ':' s.toList).map String.mk

/-- `isPathTraversal` from `internal/handler/deploy/extract.go`: splits
the path with `filepath.SplitList` and looks for a `".."` part.  Note
that `SplitList` splits on `:`, not on `/`. -/
def isPathTraversal (path : String) : Bool :=
  (goSplitList path).any (fun part => part == "..")

/-- `isWithinRoot` from `internal/handler/deploy/extract.go`: the
relative path from `root` must exist, be non-absolute and contain no
traversal according to `isPathTraversal`. -/
def isWithinRoot (root path : String) : Bool :=
  match goRel root path with
  | .error _ => false
  | .ok rel => !goIsAbs rel && !isPathTraversal rel

/-- Specification-side notion of path containment: after cleaning, the
two paths agree on rootedness and the components of `root` are a prefix
of the components of `p` (equality allowed).  `containedIn root p =
false` formalises "`p` lies outside `root`". -/
def containedIn (root p : String) : Bool :=
  (cleanParts root).1 == (cleanParts p).1
    && (cleanParts root).2.isPrefixOf (cleanParts p).2

/-- Go `filepath.Abs`: absolute paths are cleaned, relative paths are
joined onto the working directory `cwd`. -/
def goAbs (cwd p : String) : String :=
  if goIsAbs p then goClean p else goJoin2 cwd p

/-- `isPathSafe` from `internal/middleware/static.go`: a plain
`strings.HasPrefix(absFile, absRoot)` check on the absolutised paths,
with no separator appended to the root. -/
def isPathSafe (cwd rootDir filePath : String) : Bool :=
  (goAbs cwd rootDir).toList.isPrefixOf (goAbs cwd filePath).toList

/-! ## Archive extraction (`internal/handler/deploy/extract.go`,
`checkpoint.go`)

An archive is a list of entries; the filesystem effect of extraction is
the list of directory creations and file writes it performs, produced in
order.  Extraction aborts with the error of the first offending entry,
exactly as the Go loops do. -/

/-- The tar/zip entry kinds the extractors distinguish.  `other` stands
for any remaining tar type flag (char devices, fifos, ...). -/
inductive EntryType
  | dir
  | reg
  | symlink
  | hardlink
  | other
deriving DecidableEq, Repr

/-- One archive entry: its recorded name, kind, and (for regular files)
contents. -/
structure Entry where
  name : String
  typ : EntryType
  content : String
deriving DecidableEq, Repr

/-- A filesystem write performed during extraction. -/
inductive FsWrite
  | mkdir (path : String)
  | file (path : String) (content : String)
deriving DecidableEq, Repr

/-- The entry loop shared by `ExtractTar` and `ExtractTarGz`: join the
entry name onto `dest`, require `isWithinRoot`, then create directories,
write regular files (after creating the parent directory), abort on
symlink/hardlink entries, and silently skip all other types. -/
def extractTarEntries (dest : String) : List Entry → Except String (List FsWrite)
  | [] => .ok []
  | e :: rest =>
    let targetPath := goJoin2 dest e.name
    if !isWithinRoot dest targetPath then
      .error ("非法路径: " ++ e.name)
    else
      match e.typ with
      | .dir =>
        (extractTarEntries dest rest).map (fun ws => .mkdir targetPath :: ws)
      | .reg =>
        (extractTarEntries dest rest).map
          (fun ws => .mkdir (goDir targetPath) :: .file targetPath e.content :: ws)
      | .symlink | .hardlink => .error ("不支持压缩包内的符号链接: " ++ e.name)
      | .other => extractTarEntries dest rest

/-- The entry loop of `ExtractZip`: directories are created, a symlink
mode aborts, and any other entry is written as a regular file. -/
def extractZipEntries (dest : String) : List Entry → Except String (List FsWrite)
  | [] => .ok []
  | e :: rest =>
    let targetPath := goJoin2 dest e.name
    if !isWithinRoot dest targetPath then
      .error ("非法路径: " ++ e.name)
    else if e.typ = .dir then
      (extractZipEntries dest rest).map (fun ws => .mkdir targetPath :: ws)
    else if e.typ = .symlink then
      .error ("不支持压缩包内的符号链接: " ++ e.name)
    else
      (extractZipEntries dest rest).map
        (fun ws => .mkdir (goDir targetPath) :: .file targetPath e.content :: ws)

/-- `ExtractTarGzSimple` from `checkpoint.go`: same `isWithinRoot` check
as the deploy-time extractors, but its `switch` has cases only for
`TypeDir` and `TypeReg` — symlink, hardlink and every other entry type
fall through and are skipped without an error. -/
def extractTarGzSimple (dest : String) : List Entry → Except String (List FsWrite)
  | [] => .ok []
  | e :: rest =>
    let targetPath := goJoin2 dest e.name
    if !isWithinRoot dest targetPath then
      .error ("非法路径: " ++ e.name)
    else
      match e.typ with
      | .dir =>
        (extractTarGzSimple dest rest).map (fun ws => .mkdir targetPath :: ws)
      | .reg =>
        (extractTarGzSimple dest rest).map
          (fun ws => .mkdir (goDir targetPath) :: .file targetPath e.content :: ws)
      | _ => extractTarGzSimple dest rest

/-! ## Atomic directory replacement (`internal/handler/deploy/normalize.go`)

`AtomicReplaceDirectory(oldDir, newDir)` is modelled over an abstract
state holding the (optional) directory trees at the live, staged and
backup locations; trees are abstract labels.  The outcomes of the three
`renameWithRetry` calls are injected as booleans `r1` (live→backup),
`r2` (staged→live) and `r3` (backup→live restore); a rename additionally
requires its source to exist.  The crucial detail of the source is that
`defer os.RemoveAll(backupDir)` is registered immediately after the
backup rename succeeds, so it runs on *every* return from that point on,
including the failed-swap return. -/

/-- Trees present at the three directory roles involved in the swap. -/
structure DirState where
  live : Option Nat
  staged : Option Nat
  backup : Option Nat
deriving DecidableEq, Repr

/-- `AtomicReplaceDirectory` from `normalize.go`.  Returns the final
state together with `some errorMessage` on failure. -/
def atomicReplaceDirectory (st : DirState) (r1 r2 r3 : Bool) :
    DirState × Option String :=
  match st.live with
  | some oldTree =>
    if r1 then
      -- live renamed to backup; `defer os.RemoveAll(backupDir)` is now
      -- registered and will run on every return below.
      let st1 : DirState := { st with live := none, backup := some oldTree }
      if r2 ∧ st1.staged.isSome then
        -- staged → live succeeded; the deferred cleanup removes the backup.
        ({ live := st1.staged, staged := none, backup := none }, none)
      else
        -- staged → live failed: attempt to restore backup → live
        -- (best effort), then return the error.  The deferred
        -- `RemoveAll(backupDir)` still runs on this path.
        let st2 : DirState :=
          if r3 then { st1 with live := st1.backup, backup := none } else st1
        ({ st2 with backup := none }, some "替换目录失败")
    else (st, some "备份旧目录失败")
  | none =>
    -- no existing live directory: no backup is made, no defer registered.
    if r2 ∧ st.staged.isSome then
      ({ st with live := st.staged, staged := none }, none)
    else (st, some "替换目录失败")

/-! ## Sites, the file store (`sites.json`) and the lock-free resolver -/

/-- The `Site` record from `internal/site/site.go` (timestamps as
abstract naturals). -/
structure Site where
  id : String
  username : String
  domain : String
  index : String
  enabled : Bool
  createdAt : Nat
  updatedAt : Nat
deriving DecidableEq, Repr, Inhabited

/-- `Site.GetRelativeRootDir`. -/
def getRelativeRootDir (s : Site) : String :=
  "data/sites/" ++ s.username ++ "/" ++ s.id

/-- The resolver's read-only `SiteSnapshot` from `manager_lockfree.go`. -/
structure SiteSnapshot where
  id : String
  username : String
  domain : String
  index : String
  enabled : Bool
  rootDir : String
deriving DecidableEq, Repr

/-- The snapshot built from a `Site` by the manager's publish paths. -/
def snapOf (s : Site) : SiteSnapshot :=
  { id := s.id, username := s.username, domain := s.domain,
    index := s.index, enabled := s.enabled, rootDir := getRelativeRootDir s }

/-- The resolver's `map[string]*SiteSnapshot`, as an association list
with unique keys (maintained by `mapInsert`). -/
abbrev SnapMap := List (String × SiteSnapshot)

/-- Go map assignment `m[k] = v`: any previous binding of `k` is
replaced. -/
def mapInsert (m : SnapMap) (k : String) (v : SiteSnapshot) : SnapMap :=
  m.filter (fun kv => kv.1 ≠ k) ++ [(k, v)]

/-- Go map read `m[k]` (nil when absent). -/
def mapLookup (m : SnapMap) (k : String) : Option SiteSnapshot :=
  (m.find? (fun kv => kv.1 == k)).map (fun kv => kv.2)

/-- `ManagerLockFree.Load`: rebuild the snapshot map from the store's
site list, inserting only enabled sites, then publish it. -/
def mgrLoad (sites : List Site) : SnapMap :=
  sites.foldl
    (fun acc s => if s.enabled then mapInsert acc s.domain (snapOf s) else acc)
    []

/-- `ManagerLockFree.Add` (resolver effect, after the store accepted the
site): insert the snapshot only when the site is enabled. -/
def mgrAdd (m : SnapMap) (s : Site) : SnapMap :=
  if s.enabled then mapInsert m s.domain (snapOf s) else m

/-- `ManagerLockFree.Remove`: drop every snapshot whose `ID` matches,
regardless of username. -/
def mgrRemove (m : SnapMap) (id : String) : SnapMap :=
  m.filter (fun kv => kv.2.id ≠ id)

/-- `ManagerLockFree.Update`: drop the snapshots matching `(ID,
Username)`, then re-insert only when the updated site is enabled. -/
def mgrUpdate (m : SnapMap) (s : Site) : SnapMap :=
  let m' := m.filter (fun kv => ¬(kv.2.id = s.id ∧ kv.2.username = s.username))
  if s.enabled then mapInsert m' s.domain (snapOf s) else m'

/-- The port strip at the top of `ManagerLockFree.Get`: Go truncates the
host at the first `:` when one is present. -/
def stripPort (host : String) : String :=
  String.mk (host.toList.takeWhile (fun c => c ≠ ':'))

/-- `ManagerLockFree.Get`: strip the port, then read the published map. -/
def mgrGet (m : SnapMap) (host : String) : Option SiteSnapshot :=
  mapLookup m (stripPort host)

/-- A writer operation on the lock-free manager.  (In Go, `add` and
`update` reach the resolver only when the store accepted the mutation;
a rejected mutation leaves the map unchanged, which is the same map as
the sequence without that operation, so quantifying over all sequences
covers both cases.) -/
inductive MgrOp
  | load (sites : List Site)
  | add (s : Site)
  | update (s : Site)
  | remove (id : String)

/-- Apply one writer operation to the published snapshot map. -/
def applyOp (m : SnapMap) : MgrOp → SnapMap
  | .load sites => mgrLoad sites
  | .add s => mgrAdd m s
  | .update s => mgrUpdate m s
  | .remove id => mgrRemove m id

/-- The snapshot map after a sequence of writer operations, starting
from the empty map installed by `NewManagerLockFree`. -/
def runOps (ops : List MgrOp) : SnapMap :=
  ops.foldl applyOp []

/-- The response decided by `StaticFileServer` in
`internal/middleware/static.go`, as an HTTP status code: 404 when no
snapshot is bound to the host, 503 when the snapshot is disabled, 403
when `isPathSafe` rejects the joined file path, 100 for the `/_api` /
`/_admin` pass-through, and 200 when the request proceeds to file
serving. -/
def serveStatus (m : SnapMap) (cwd baseDir host path : String) : Nat :=
  match mgrGet m host with
  | none => 404
  | some snap =>
    if !snap.enabled then 503
    else
      let reqPath := if path = "/" then "/" ++ snap.index else path
      if "/_api".toList.isPrefixOf reqPath.toList
          ∨ "/_admin".toList.isPrefixOf reqPath.toList then 100
      else
        let rootDir := goJoinList [baseDir, snap.username, snap.id]
        let filePath := goJoin2 rootDir reqPath
        if !isPathSafe cwd rootDir filePath then 403 else 200

/-! ### The file store (`FileStore` over `sites.json`)

The store state is the parsed content of `sites.json` (a site list);
each mutation is load → check → save, and a rejection returns before the
save, leaving the file untouched.  Functions return the resulting list
together with `some errorMessage` on rejection. -/

/-- The duplicate scan at the top of `FileStore.Add`: the first existing
site sharing `(username, id)` or sharing `domain` produces the
corresponding error, scanning in list order. -/
def addCheck (s : Site) : List Site → Option String
  | [] => none
  | e :: rest =>
    if e.username = s.username ∧ e.id = s.id then
      some ("站点 ID " ++ s.id ++ " 在租户 " ++ s.username ++ " 中已存在")
    else if e.domain = s.domain then
      some ("域名 " ++ s.domain ++ " 已被绑定")
    else addCheck s rest

/-- `FileStore.Add`: reject on a duplicate `(username, id)` or domain
(file unchanged), otherwise append and save. -/
def fileStoreAdd (sites : List Site) (s : Site) : List Site × Option String :=
  match addCheck s sites with
  | some msg => (sites, some msg)
  | none => (sites ++ [s], none)

/-- `FileStore.Remove`: drop every site whose `ID` matches (across all
tenants); error without saving when none matched. -/
def fileStoreRemove (sites : List Site) (id : String) : List Site × Option String :=
  let newSites := sites.filter (fun s => s.id ≠ id)
  if sites.any (fun s => s.id == id) then (newSites, none)
  else (sites, some ("站点 " ++ id ++ " 不存在"))

/-! ## Checkpoint manager (`internal/handler/deploy/checkpoint.go`)

The per-site on-disk state is the parsed `metadata.json` (or `none` when
the file is missing), the archive files present under `checkpoints/`,
and the files of the live/target root.  `time.Now()` readings are passed
in as abstract naturals. -/

/-- The `Checkpoint` record. -/
structure Checkpoint where
  id : String
  createdAt : Nat
  fileSize : Int
  fileName : String
  note : String
  source : String
  description : String
deriving DecidableEq, Repr

/-- The `DiskUsage` record.  Go renders the human-readable fields with
`%.2f` over `float64`; `formatBytes` below reproduces the format with
integer arithmetic (truncating the fraction), which no claim depends
on. -/
structure DiskUsage where
  deployedSize : Int
  checkpointsSize : Int
  totalSize : Int
  deployedSizeHR : String
  checkpointsSizeHR : String
  totalSizeHR : String
  fileCount : Int
  checkpointCount : Nat
deriving DecidableEq, Repr

/-- The `SiteCheckpointMetadata` record (`metadata.json`). -/
structure SiteCheckpointMetadata where
  siteId : String
  username : String
  current : String
  checkpoints : List Checkpoint
  storageUsage : Option DiskUsage
  updatedAt : Nat
deriving DecidableEq, Repr

/-- An archive file under `checkpoints/`: its path, the tar entries it
unpacks to, and its on-disk size. -/
structure ArchiveFile where
  path : String
  entries : List Entry
  size : Int
deriving DecidableEq, Repr

/-- The filesystem state a `CheckpointManager` operates on for one
site: the metadata file, the archive files, and the files of the
deployed target root as `(path, content)` pairs. -/
structure CheckpointFs where
  metadata : Option SiteCheckpointMetadata
  archives : List ArchiveFile
  target : List (String × String)
deriving DecidableEq, Repr

/-- `getCheckpointPath`: `{base}/{username}/{siteID}/checkpoints/{id}.tar.gz`. -/
def getCheckpointPath (baseDir username siteID checkpointID : String) : String :=
  goJoinList [baseDir, username, siteID, "checkpoints", checkpointID ++ ".tar.gz"]

/-- `loadSiteMetadata`: parse `metadata.json`, or return the empty
skeleton (with `UpdatedAt = time.Now()`) when the file is missing. -/
def loadSiteMetadata (fs : CheckpointFs) (username siteID : String) (now : Nat) :
    SiteCheckpointMetadata :=
  match fs.metadata with
  | none =>
    { siteId := siteID, username := username, current := "",
      checkpoints := [], storageUsage := none, updatedAt := now }
  | some md => md

/-- `formatBytes`: `"<n> B"` below 1 KiB, otherwise a two-decimal value
with a binary unit suffix (integer approximation of Go's float
formatting). -/
def formatBytes (bytes : Int) : String :=
  if bytes < 1024 then toString bytes ++ " B"
  else
    let rec loop : Nat → Int → Nat → Int → Int × Nat
      | 0, div, exp, _ => (div, exp)
      | fuel + 1, div, exp, n =>
        if n ≥ 1024 then loop fuel (div * 1024) (exp + 1) (n / 1024)
        else (div, exp)
    let (div, exp) := loop 8 1024 0 (bytes / 1024)
    let centi := bytes * 100 / div
    let units := ["KB", "MB", "GB", "TB", "PB"]
    toString (centi / 100) ++ "." ++ toString (centi % 100) ++ " "
      ++ (units.getD exp "PB")

/-- `calculateDirSize` over the modelled target root: total bytes and
file count. -/
def calculateDirSize (files : List (String × String)) : Int × Int :=
  files.foldl (fun acc f => (acc.1 + (f.2.length : Int), acc.2 + 1)) (0, 0)

/-- `CheckpointManager.GetCheckpointsUsage`: total size and count of the
`.gz` files among the archives. -/
def getCheckpointsUsage (archives : List ArchiveFile) : Int × Nat :=
  archives.foldl
    (fun acc a =>
      if a.path.toList.reverse.take 3 = ['z', 'g', '.'] then
        (acc.1 + a.size, acc.2 + 1)
      else acc)
    (0, 0)

/-- `CheckpointManager.StorageRecount`: reload the metadata, recompute
the deployed and checkpoint usage from disk, store it in
`storage_usage`, bump `updated_at` and save. -/
def storageRecount (fs : CheckpointFs) (username siteID : String) (now : Nat) :
    CheckpointFs :=
  let metadata := loadSiteMetadata fs username siteID now
  let deployed := calculateDirSize fs.target
  let cps := getCheckpointsUsage fs.archives
  let totalSize := deployed.1 + cps.1
  let usage : DiskUsage :=
    { deployedSize := deployed.1, checkpointsSize := cps.1,
      totalSize := totalSize,
      deployedSizeHR := formatBytes deployed.1,
      checkpointsSizeHR := formatBytes cps.1,
      totalSizeHR := formatBytes totalSize,
      fileCount := deployed.2, checkpointCount := cps.2 }
  let md2 := { metadata with storageUsage := some usage, updatedAt := now }
  { fs with metadata := some md2 }

/-- `CheckpointManager.DeleteCheckpoint`: load the metadata; refuse when
the id is the current checkpoint (before any mutation); refuse when the
id is unknown; otherwise drop the record, delete the archive file
(missing file tolerated), clear the usage cache and save. -/
def deleteCheckpoint (baseDir : String) (fs : CheckpointFs)
    (username siteID checkpointID : String) (now : Nat) :
    CheckpointFs × Option String :=
  let metadata := loadSiteMetadata fs username siteID now
  if metadata.current = checkpointID then
    (fs, some "无法删除当前激活的检查点")
  else
    let newCheckpoints := metadata.checkpoints.filter (fun cp => cp.id ≠ checkpointID)
    if !metadata.checkpoints.any (fun cp => cp.id == checkpointID) then
      (fs, some ("检查点不存在: " ++ checkpointID))
    else
      let archivePath := getCheckpointPath baseDir username siteID checkpointID
      let md2 :=
        { metadata with checkpoints := newCheckpoints, updatedAt := now, storageUsage := none }
      let archives2 := fs.archives.filter (fun a => a.path ≠ archivePath)
      ({ fs with metadata := some md2, archives := archives2 }, none)

/-- `CheckpointManager.CheckoutCheckpoint`: verify the checkpoint record
and its archive file exist, clear and recreate the target root, unpack
with `ExtractTarGzSimple`, set `current`, bump `updated_at`, save, then
run a best-effort `StorageRecount` (which reloads the just-saved
metadata).  `now` and `now2` are the two `time.Now()` readings. -/
def checkoutCheckpoint (baseDir : String) (fs : CheckpointFs)
    (username siteID checkpointID targetDir : String) (now now2 : Nat) :
    CheckpointFs × Option String :=
  let metadata := loadSiteMetadata fs username siteID now
  if !metadata.checkpoints.any (fun cp => cp.id == checkpointID) then
    (fs, some ("检查点不存在: " ++ checkpointID))
  else
    let archivePath := getCheckpointPath baseDir username siteID checkpointID
    match fs.archives.find? (fun a => a.path == archivePath) with
    | none => (fs, some ("检查点文件不存在: " ++ checkpointID))
    | some af =>
      -- RemoveAll(targetDir) + MkdirAll(targetDir)
      let fs1 := { fs with target := [] }
      match extractTarGzSimple targetDir af.entries with
      | .error e => (fs1, some ("解压检查点失败: " ++ e))
      | .ok writes =>
        let writtenFiles := writes.filterMap (fun w =>
          match w with
          | FsWrite.file p c => some (p, c)
          | FsWrite.mkdir _ => none)
        let fs2 := { fs1 with target := writtenFiles }
        let md2 := { metadata with current := checkpointID, updatedAt := now }
        let fs3 := { fs2 with metadata := some md2 }
        (storageRecount fs3 username siteID now2, none)

/-! ## Concrete states used by witnesses and counterexamples -/

/-- A registry holding one disabled site bound to `d.example`. -/
def disabledRegistry : List Site :=
  [{ id := "blog", username := "u", domain := "d.example",
     index := "index.html", enabled := false, createdAt := 0, updatedAt := 0 }]

/-- A registry holding one enabled site whose domain contains a colon. -/
def colonRegistry : List Site :=
  [{ id := "x", username := "u", domain := "a:b",
     index := "index.html", enabled := true, createdAt := 0, updatedAt := 0 }]

/-- A registry holding one enabled site bound to `blog.example`. -/
def enabledRegistry : List Site :=
  [{ id := "blog", username := "u", domain := "blog.example",
     index := "index.html", enabled := true, createdAt := 3, updatedAt := 4 }]

/-- Two sites of different tenants sharing the id `shared`. -/
def sharedIdRegistry : List Site :=
  [{ id := "shared", username := "alice", domain := "a.example",
     index := "index.html", enabled := true, createdAt := 0, updatedAt := 0 },
   { id := "shared", username := "bob", domain := "b.example",
     index := "index.html", enabled := true, createdAt := 0, updatedAt := 0 }]

/-- A checkpoint record with id `c0`. -/
def demoCp0 : Checkpoint :=
  { id := "c0", createdAt := 0, fileSize := 5, fileName := "v0.zip",
    note := "", source := "deploy", description := "d0" }

/-- A checkpoint record with id `c1`. -/
def demoCp1 : Checkpoint :=
  { id := "c1", createdAt := 1, fileSize := 10, fileName := "v1.zip",
    note := "", source := "deploy", description := "d1" }

/-- Metadata for site `u/blog` with two checkpoints and `current = c0`. -/
def demoMetadata : SiteCheckpointMetadata :=
  { siteId := "blog", username := "u", current := "c0",
    checkpoints := [demoCp0, demoCp1], storageUsage := none, updatedAt := 0 }

/-- A checkpoint filesystem for `u/blog` under base `/base`: the metadata
above, one archive file for `c1` containing a single page, and one stale
file in the live root. -/
def demoCheckpointFs : CheckpointFs :=
  { metadata := some demoMetadata,
    archives := [{ path := getCheckpointPath "/base" "u" "blog" "c1",
                   entries := [{ name := "index.html", typ := .reg, content := "hi" }],
                   size := 10 }],
    target := [("old.html", "x")] }

/-! ## Helper lemmas -/

/-- Reading a key from a map after a Go-style insert: the inserted key
yields the new value, any other key is unaffected. -/
theorem mapLookup_insert (m : SnapMap) (k k' : String) (v : SiteSnapshot) :
    mapLookup (mapInsert m k v) k' = if k' = k then some v else mapLookup m k' := by
  unfold mapInsert mapLookup
  rw [List.find?_append]
  by_cases h : k' = k
  · subst h
    have hleft :
        (m.filter (fun kv => kv.1 ≠ k')).find? (fun kv => kv.1 == k') = none := by
      rw [List.find?_eq_none]
      intro kv hkv
      have h2 := (List.mem_filter.mp hkv).2
      simp only [ne_eq, decide_not, Bool.not_eq_eq_eq_not, Bool.not_true,
        decide_eq_false_iff_not] at h2
      simp [beq_iff_eq, h2]
    rw [hleft]
    simp [List.find?_cons]
  · have hleft :
        (m.filter (fun kv => kv.1 ≠ k)).find? (fun kv => kv.1 == k')
          = m.find? (fun kv => kv.1 == k') := by
      induction m with
      | nil => rfl
      | cons kv m ih =>
        by_cases h1 : kv.1 = k
        · have hfil : List.filter (fun kv : String × SiteSnapshot => decide (kv.1 ≠ k)) (kv :: m)
              = List.filter (fun kv => decide (kv.1 ≠ k)) m := by
            simp [List.filter_cons, h1]
          have h2 : (kv.1 == k') = false := by
            simp only [beq_eq_false_iff_ne, ne_eq, h1]
            exact fun hh => h hh.symm
          rw [hfil, ih, List.find?_cons, h2]
        · have hfil : List.filter (fun kv : String × SiteSnapshot => decide (kv.1 ≠ k)) (kv :: m)
              = kv :: List.filter (fun kv => decide (kv.1 ≠ k)) m := by
            simp [List.filter_cons, h1]
          rw [hfil]
          by_cases h2 : kv.1 = k'
          · have hp : (kv.1 == k') = true := by simp [beq_iff_eq, h2]
            simp only [List.find?_cons, hp]
          · have hp : (kv.1 == k') = false := by simp [beq_eq_false_iff_ne, h2]
            simp only [List.find?_cons, hp]
            exact ih
    rw [hleft]
    have hr : (([(k, v)] : SnapMap).find? (fun kv => kv.1 == k')) = none := by
      simp only [List.find?_cons, List.find?_nil]
      have : (k == k') = false := by
        simp only [beq_eq_false_iff_ne, ne_eq]
        exact fun hh => h hh.symm
      simp [this]
    rw [hr, Option.or_none, if_neg h]

/-- The last enabled site bound to domain `d` in the store list wins in
the resolver map built by `mgrLoad` (Go map writes overwrite). -/
def findLastEnabled (d : String) : List Site → Option Site
  | [] => none
  | s :: rest =>
    match findLastEnabled d rest with
    | some s' => some s'
    | none => if s.enabled = true ∧ s.domain = d then some s else none

theorem mapLookup_mgrLoadAux (d : String) (sites : List Site) :
    ∀ m : SnapMap,
      mapLookup
        (sites.foldl
          (fun acc s => if s.enabled then mapInsert acc s.domain (snapOf s) else acc)
          m) d
      = match findLastEnabled d sites with
        | some s => some (snapOf s)
        | none => mapLookup m d := by
  induction sites with
  | nil => intro m; simp [findLastEnabled]
  | cons s rest ih =>
    intro m
    simp only [List.foldl_cons, findLastEnabled]
    rw [ih]
    cases hfind : findLastEnabled d rest with
    | some s' => simp
    | none =>
      simp only
      cases he : s.enabled with
      | false => simp [he]
      | true =>
        simp only [he, if_true, mapLookup_insert, true_and]
        by_cases hd : s.domain = d
        · subst hd; simp
        · have hd' : ¬ d = s.domain := fun hh => hd hh.symm
          simp [hd, hd']

/-- `mgrLoad` lookup characterisation. -/
theorem mapLookup_mgrLoad (d : String) (sites : List Site) :
    mapLookup (mgrLoad sites) d
      = match findLastEnabled d sites with
        | some s => some (snapOf s)
        | none => none := by
  have := mapLookup_mgrLoadAux d sites []
  simpa [mgrLoad, mapLookup] using this

theorem findLastEnabled_some (d : String) (sites : List Site) (s : Site)
    (h : findLastEnabled d sites = some s) :
    s ∈ sites ∧ s.enabled = true ∧ s.domain = d := by
  induction sites with
  | nil => simp [findLastEnabled] at h
  | cons s' rest ih =>
    simp only [findLastEnabled] at h
    cases hfind : findLastEnabled d rest with
    | some s'' =>
      rw [hfind] at h
      obtain ⟨hmem, he, hd⟩ := ih (hfind.trans (by injection h with h'; rw [h']))
      exact ⟨List.mem_cons_of_mem _ hmem, he, hd⟩
    | none =>
      rw [hfind] at h
      by_cases hc : s'.enabled = true ∧ s'.domain = d
      · rw [if_pos hc] at h
        injection h with h'
        subst h'
        exact ⟨List.mem_cons_self _ _, hc.1, hc.2⟩
      · rw [if_neg hc] at h
        exact absurd h (by simp)

theorem findLastEnabled_eq_none (d : String) (sites : List Site)
    (h : ∀ s ∈ sites, ¬(s.enabled = true ∧ s.domain = d)) :
    findLastEnabled d sites = none := by
  induction sites with
  | nil => simp [findLastEnabled]
  | cons s rest ih =>
    simp only [findLastEnabled]
    rw [ih (fun s' hs' => h s' (List.mem_cons_of_mem _ hs'))]
    simp [h s (List.mem_cons_self _ _)]

theorem findLastEnabled_isSome (d : String) (sites : List Site) (s : Site)
    (hs : s ∈ sites) (he : s.enabled = true) (hd : s.domain = d) :
    (findLastEnabled d sites).isSome = true := by
  cases hfind : findLastEnabled d sites with
  | some s' => rfl
  | none =>
    induction sites with
    | nil => simp at hs
    | cons s'' rest ih =>
      simp only [findLastEnabled] at hfind
      cases hrest : findLastEnabled d rest with
      | some s' => rw [hrest] at hfind; simp at hfind
      | none =>
        rw [hrest] at hfind
        rcases List.mem_cons.mp hs with h | h
        · subst h
          rw [if_pos ⟨he, hd⟩] at hfind
          simp at hfind
        · exact ih h hrest

/-- Every snapshot in the published map is enabled: the invariant behind
the resolver's treatment of disabled sites. -/
def allEnabled (m : SnapMap) : Prop :=
  ∀ kv ∈ m, kv.2.enabled = true

theorem allEnabled_mapInsert (m : SnapMap) (k : String) (v : SiteSnapshot)
    (hm : allEnabled m) (hv : v.enabled = true) : allEnabled (mapInsert m k v) := by
  intro kv hkv
  rcases List.mem_append.mp hkv with h | h
  · exact hm kv (List.mem_filter.mp h).1
  · rcases List.mem_singleton.mp h with rfl
    exact hv

theorem allEnabled_mgrLoadAux (sites : List Site) :
    ∀ m : SnapMap, allEnabled m →
      allEnabled
        (sites.foldl
          (fun acc s => if s.enabled then mapInsert acc s.domain (snapOf s) else acc)
          m) := by
  induction sites with
  | nil => intro m hm; exact hm
  | cons s rest ih =>
    intro m hm
    simp only [List.foldl_cons]
    apply ih
    cases he : s.enabled with
    | false => simpa [he] using hm
    | true =>
      simp only [he, if_true]
      exact allEnabled_mapInsert m s.domain (snapOf s) hm he

theorem allEnabled_applyOp (m : SnapMap) (op : MgrOp) (hm : allEnabled m) :
    allEnabled (applyOp m op) := by
  cases op with
  | load sites => exact allEnabled_mgrLoadAux sites [] (by intro kv h; simp at h)
  | add s =>
    simp only [applyOp, mgrAdd]
    cases he : s.enabled with
    | false => simpa [he] using hm
    | true =>
      simp only [he, if_true]
      exact allEnabled_mapInsert m s.domain (snapOf s) hm he
  | update s =>
    simp only [applyOp, mgrUpdate]
    have hm' : allEnabled
        (m.filter (fun kv => ¬(kv.2.id = s.id ∧ kv.2.username = s.username))) := by
      intro kv hkv
      exact hm kv (List.mem_filter.mp hkv).1
    cases he : s.enabled with
    | false => simpa [he] using hm'
    | true =>
      simp only [he, if_true]
      exact allEnabled_mapInsert _ s.domain (snapOf s) hm' he
  | remove id =>
    intro kv hkv
    exact hm kv (List.mem_filter.mp hkv).1

theorem allEnabled_runOps (ops : List MgrOp) : allEnabled (runOps ops) := by
  have main : ∀ ops : List MgrOp, ∀ m : SnapMap, allEnabled m →
      allEnabled (ops.foldl applyOp m) := by
    intro ops
    induction ops with
    | nil => intro m hm; exact hm
    | cons op rest ih =>
      intro m hm
      exact ih (applyOp m op) (allEnabled_applyOp m op hm)
  exact main ops [] (by intro kv h; simp at h)

/-! ### String rendering lemmas for the path-containment comparison -/

theorem joinComps_append_exists :
    ∀ l r : List String, ∃ t : String, joinComps (l ++ r) = joinComps l ++ t := by
  intro l
  induction l with
  | nil =>
    intro r
    exact ⟨joinComps r, rfl⟩
  | cons c tail ih =>
    intro r
    cases tail with
    | nil =>
      cases r with
      | nil =>
        refine ⟨"", ?_⟩
        show joinComps [c] = joinComps [c] ++ ""
        cases hc : joinComps [c] with
        | mk data => exact congrArg String.mk (List.append_nil data).symm
      | cons b bs =>
        refine ⟨"/" ++ joinComps (b :: bs), ?_⟩
        show c ++ "/" ++ joinComps (b :: bs) = c ++ ("/" ++ joinComps (b :: bs))
        exact String.append_assoc c "/" (joinComps (b :: bs))
    | cons c' cs =>
      obtain ⟨t, ht⟩ := ih r
      refine ⟨t, ?_⟩
      show c ++ "/" ++ joinComps ((c' :: cs) ++ r) = (c ++ "/" ++ joinComps (c' :: cs)) ++ t
      rw [ht, ← String.append_assoc]

theorem string_append_toList (a b : String) : (a ++ b).toList = a.toList ++ b.toList :=
  String.data_append a b

/-- A successful map lookup exhibits a member of the map. -/
theorem mapLookup_mem (m : SnapMap) (k : String) (snap : SiteSnapshot)
    (h : mapLookup m k = some snap) : ∃ kv ∈ m, kv.2 = snap := by
  unfold mapLookup at h
  cases hf : m.find? (fun kv => kv.1 == k) with
  | none => rw [hf] at h; simp at h
  | some kv =>
    rw [hf] at h
    simp at h
    exact ⟨kv, List.mem_of_find?_eq_some hf, h⟩

/-- On a map whose snapshots are all enabled, `StaticFileServer` never
answers 503. -/
theorem serveStatus_ne_503 (m : SnapMap) (hm : allEnabled m)
    (cwd base host path : String) :
    serveStatus m cwd base host path ≠ 503 := by
  unfold serveStatus
  cases hget : mgrGet m host with
  | none => exact (by decide : (404 : Nat) ≠ 503)
  | some snap =>
    have hen : snap.enabled = true := by
      obtain ⟨kv, hmem, hkv2⟩ := mapLookup_mem m (stripPort host) snap hget
      rw [← hkv2]
      exact hm kv hmem
    have hcond : ¬ ((!snap.enabled) = true) := by rw [hen]; decide
    dsimp only
    rw [if_neg hcond]
    split
    all_goals split
    all_goals try split
    all_goals omega

/-! ## Claims -/

/-- C1: the claim says extraction fails with a path error on `..`
entries and writes nothing outside `dest`, and that `isWithinRoot(dest,
join(dest, name))` is false whenever the joined path lies outside
`dest`.  The code violates this: `isPathTraversal` splits the relative
path with `filepath.SplitList` (the `:` list separator) instead of the
path separator, so the relative path `../evil.txt` has no part equal to
`..` and passes.  At `dest = /tmp/extract`, a tar (or zip) archive whose
single regular entry is named `../evil.txt` extracts without error and
writes `/tmp/evil.txt`, which lies outside the destination, and
`isWithinRoot` returns true on the escaping joined path. -/
theorem extract_path_escape_bug :
    extractTarEntries "/tmp/extract" [{ name := "../evil.txt", typ := .reg, content := "pwn" }]
      = .ok [.mkdir "/tmp", .file "/tmp/evil.txt" "pwn"]
    ∧ containedIn "/tmp/extract" "/tmp/evil.txt" = false
    ∧ isWithinRoot "/tmp/extract" (goJoin2 "/tmp/extract" "../evil.txt") = true
    ∧ extractZipEntries "/tmp/extract" [{ name := "../evil.txt", typ := .reg, content := "pwn" }]
      = .ok [.mkdir "/tmp", .file "/tmp/evil.txt" "pwn"] :=
  ⟨rfl, rfl, rfl, rfl⟩

/-- C2: the claim says that after a failed swap whose backup restore
also fails, the backup directory is still present when
`AtomicReplaceDirectory` returns.  The code violates this: the `defer
os.RemoveAll(backupDir)` registered right after the backup rename runs
on the error return as well.  With live tree `1` and staged tree `2`,
backup rename succeeding and both the swap rename and the restore
failing, the function returns an error but the final state holds
neither the backup nor the live tree — the old tree is discarded.  (The
second conjunct records the nearby working path: when the restore rename
succeeds, the old tree is back at `live`.) -/
theorem atomic_replace_backup_lost_bug :
    atomicReplaceDirectory { live := some 1, staged := some 2, backup := none } true false false
      = ({ live := none, staged := some 2, backup := none }, some "替换目录失败")
    ∧ atomicReplaceDirectory { live := some 1, staged := some 2, backup := none } true false true
      = ({ live := some 1, staged := some 2, backup := none }, some "替换目录失败") :=
  ⟨rfl, rfl⟩

/-- C5: `DeleteCheckpoint` with the current checkpoint id returns the
rejection error before any mutation: the metadata file, the checkpoints
list and the archive files are all exactly as before. -/
theorem deleteCheckpoint_current_rejected (baseDir : String) (fs : CheckpointFs)
    (username siteID checkpointID : String) (now : Nat)
    (h : (loadSiteMetadata fs username siteID now).current = checkpointID) :
    deleteCheckpoint baseDir fs username siteID checkpointID now
      = (fs, some "无法删除当前激活的检查点") := by
  unfold deleteCheckpoint
  rw [if_pos h]

/-- C5 witness: deleting `c0` while `current = c0` on the demo state is
rejected and the state is returned unchanged. -/
theorem deleteCheckpoint_current_rejected_witness :
    deleteCheckpoint "/base" demoCheckpointFs "u" "blog" "c0" 7
      = (demoCheckpointFs, some "无法删除当前激活的检查点") :=
  deleteCheckpoint_current_rejected "/base" demoCheckpointFs "u" "blog" "c0" 7 (by decide)

/-- C7 counterexample: the claim says any symlink or hardlink entry
aborts `ExtractTarGzSimple` with an error, but the switch in the code
has no case for them: an archive whose only entry is a symlink extracts
successfully with no write at all. -/
theorem extractTarGzSimple_symlink_not_error :
    extractTarGzSimple "/dst" [{ name := "link", typ := .symlink, content := "" }]
      = .ok [] :=
  rfl

/-- C7 amended: `ExtractTarGzSimple` runs every entry through the same
`isWithinRoot` check as deploy-time extraction and aborts with the path
error when the check fails, but symlink and hardlink entries that pass
the check are silently skipped (no write, no error) instead of aborting. -/
theorem extractTarGzSimple_pathcheck_and_skip (dest : String) (e : Entry)
    (rest : List Entry) :
    (isWithinRoot dest (goJoin2 dest e.name) = false →
      extractTarGzSimple dest (e :: rest) = .error ("非法路径: " ++ e.name))
    ∧ ((e.typ = .symlink ∨ e.typ = .hardlink) →
        isWithinRoot dest (goJoin2 dest e.name) = true →
        extractTarGzSimple dest (e :: rest) = extractTarGzSimple dest rest) := by
  constructor
  · intro h
    simp [extractTarGzSimple, h]
  · intro htyp h
    rcases htyp with htyp | htyp <;> simp [extractTarGzSimple, h, htyp]

/-- C7 amended witness: on a concrete archive a hardlink entry inside
the destination is skipped and the remaining entries extract as if it
were absent. -/
theorem extractTarGzSimple_pathcheck_and_skip_witness :
    extractTarGzSimple "/dst"
        [{ name := "l", typ := .hardlink, content := "" },
         { name := "a.txt", typ := .reg, content := "x" }]
      = extractTarGzSimple "/dst" [{ name := "a.txt", typ := .reg, content := "x" }] :=
  (extractTarGzSimple_pathcheck_and_skip "/dst"
      { name := "l", typ := .hardlink, content := "" }
      [{ name := "a.txt", typ := .reg, content := "x" }]).2
    (Or.inr rfl) (by decide)

/-- The duplicate scan of `FileStore.Add` finds nothing exactly when no
stored site shares `(username, id)` or `domain` with the candidate. -/
theorem addCheck_eq_none_iff (s : Site) (sites : List Site) :
    addCheck s sites = none
      ↔ ∀ e ∈ sites, ¬(e.username = s.username ∧ e.id = s.id) ∧ e.domain ≠ s.domain := by
  induction sites with
  | nil => simp [addCheck]
  | cons e rest ih =>
    simp only [addCheck]
    by_cases h1 : e.username = s.username ∧ e.id = s.id
    · rw [if_pos h1]
      simp [h1]
    · rw [if_neg h1]
      by_cases h2 : e.domain = s.domain
      · rw [if_pos h2]
        simp [h1, h2]
      · rw [if_neg h2]
        rw [ih]
        simp only [List.mem_cons, ne_eq]
        constructor
        · intro hall
          intro e' he'
          rcases he' with he' | he'
          · subst he'
            exact ⟨fun hc => h1 hc, h2⟩
          · exact hall e' he'
        · intro hall e' he'
          exact hall e' (Or.inr he')

/-- C8: `FileStore.Add` rejects (with an error and without touching the
stored list) whenever some stored site shares `(username, id)` with the
argument or some stored site has the same domain; otherwise it appends
the new site, preserving all previous sites. -/
theorem fileStoreAdd_uniqueness (sites : List Site) (s : Site) :
    ((∃ e ∈ sites, e.username = s.username ∧ e.id = s.id) →
      (fileStoreAdd sites s).1 = sites ∧ (fileStoreAdd sites s).2.isSome = true)
    ∧ ((∃ e ∈ sites, e.domain = s.domain) →
      (fileStoreAdd sites s).1 = sites ∧ (fileStoreAdd sites s).2.isSome = true)
    ∧ ((∀ e ∈ sites, ¬(e.username = s.username ∧ e.id = s.id) ∧ e.domain ≠ s.domain) →
      fileStoreAdd sites s = (sites ++ [s], none)) := by
  refine ⟨?_, ?_, ?_⟩
  · rintro ⟨e, he, hdup⟩
    cases hchk : addCheck s sites with
    | some msg => simp [fileStoreAdd, hchk]
    | none => exact absurd hdup ((addCheck_eq_none_iff s sites).mp hchk e he).1
  · rintro ⟨e, he, hdom⟩
    cases hchk : addCheck s sites with
    | some msg => simp [fileStoreAdd, hchk]
    | none => exact absurd hdom ((addCheck_eq_none_iff s sites).mp hchk e he).2
  · intro hall
    have hchk : addCheck s sites = none := (addCheck_eq_none_iff s sites).mpr hall
    simp [fileStoreAdd, hchk]

/-- C8 witness: adding a new site with the id `shared` under the tenant
`alice` to the two-tenant demo registry is rejected with the registry
unchanged (duplicate `(username, id)`), and adding a site with a fresh
id and domain appends it. -/
theorem fileStoreAdd_uniqueness_witness :
    ((fileStoreAdd sharedIdRegistry
        { id := "shared", username := "alice", domain := "c.example",
          index := "index.html", enabled := true, createdAt := 9, updatedAt := 9 }).1
      = sharedIdRegistry)
    ∧ (fileStoreAdd sharedIdRegistry
        { id := "fresh", username := "alice", domain := "c.example",
          index := "index.html", enabled := true, createdAt := 9, updatedAt := 9 })
      = (sharedIdRegistry ++
          [{ id := "fresh", username := "alice", domain := "c.example",
             index := "index.html", enabled := true, createdAt := 9, updatedAt := 9 }], none) := by
  constructor
  · exact ((fileStoreAdd_uniqueness sharedIdRegistry
      { id := "shared", username := "alice", domain := "c.example",
        index := "index.html", enabled := true, createdAt := 9, updatedAt := 9 }).1
      (by decide)).1
  · exact (fileStoreAdd_uniqueness sharedIdRegistry
      { id := "fresh", username := "alice", domain := "c.example",
        index := "index.html", enabled := true, createdAt := 9, updatedAt := 9 }).2.2
      (by decide)

/-- C10: removal by id is not tenant-scoped.  `ManagerLockFree.Remove`
drops from the resolver map every snapshot whose id matches, regardless
of username (and keeps everything else); `FileStore.Remove` drops from
the stored list every site whose id matches across all tenants; in
particular removing `shared` from the two-tenant demo registry deletes
both tenants' sites. -/
theorem remove_not_tenant_scoped (m : SnapMap) (sites : List Site) (id : String) :
    (∀ kv ∈ mgrRemove m id, kv.2.id ≠ id)
    ∧ (∀ kv ∈ m, kv.2.id ≠ id → kv ∈ mgrRemove m id)
    ∧ (sites.any (fun s => s.id == id) = true →
        fileStoreRemove sites id = (sites.filter (fun s => s.id ≠ id), none))
    ∧ fileStoreRemove sharedIdRegistry "shared" = ([], none) := by
  refine ⟨?_, ?_, ?_, by decide⟩
  · intro kv hkv
    have := (List.mem_filter.mp hkv).2
    simpa using this
  · intro kv hkv hne
    exact List.mem_filter.mpr ⟨hkv, by simpa using hne⟩
  · intro hany
    simp [fileStoreRemove, hany]

/-- C10 witness: in a concrete map holding snapshots of both tenants'
`shared` sites plus an unrelated one, `Remove "shared"` keeps exactly
the unrelated snapshot. -/
theorem remove_not_tenant_scoped_witness :
    (∀ kv ∈ mgrRemove
        [("a.example", snapOf (sharedIdRegistry.getD 0 default)),
         ("b.example", snapOf (sharedIdRegistry.getD 1 default)),
         ("c.example", snapOf (enabledRegistry.getD 0 default))] "shared",
      kv.2.id ≠ "shared")
    ∧ fileStoreRemove sharedIdRegistry "shared" = ([], none) :=
  ⟨(remove_not_tenant_scoped
      [("a.example", snapOf (sharedIdRegistry.getD 0 default)),
       ("b.example", snapOf (sharedIdRegistry.getD 1 default)),
       ("c.example", snapOf (enabledRegistry.getD 0 default))] [] "shared").1,
   (remove_not_tenant_scoped [] sharedIdRegistry "shared").2.2.2⟩

/-- C3 counterexample: the claim says a request whose Host is the domain
of a registry site with `enabled = false` receives 503.  After `Load` of
a registry holding exactly such a site, the resolver map omits it (only
enabled sites are inserted), so the request falls into the `snap == nil`
branch and receives 404 — the same status as an unbound domain — not
503. -/
theorem disabled_site_gets_404_not_503 :
    (∃ s ∈ disabledRegistry, s.domain = "d.example" ∧ s.enabled = false)
    ∧ serveStatus (runOps [.load disabledRegistry]) "/" "/srv" "d.example" "/" = 404
    ∧ serveStatus (runOps [.load disabledRegistry]) "/" "/srv" "d.example" "/" ≠ 503 := by
  refine ⟨?_, by decide, by decide⟩
  exact ⟨disabledRegistry.head (by decide), by decide, by decide, by decide⟩

/-- C3 amended: a disabled site is absent from every reachable resolver
map, so a request for its domain receives 404 exactly like a domain
bound to no site; the 503 branch of `StaticFileServer` never fires on a
map produced by any sequence of Load/Add/Update/Remove.  Formally: no
request against a reachable map is answered 503, and after a `Load` of a
registry whose every site bound to domain `d` (colon-free) is disabled,
a request with Host `d` is answered 404. -/
theorem resolver_never_503 (ops : List MgrOp) (sites : List Site)
    (cwd base host path d reqPath : String)
    (hv : stripPort d = d)
    (hdis : ∀ s ∈ sites, s.domain = d → s.enabled = false) :
    serveStatus (runOps ops) cwd base host path ≠ 503
    ∧ serveStatus (mgrLoad sites) cwd base d reqPath = 404 := by
  constructor
  · exact serveStatus_ne_503 (runOps ops) (allEnabled_runOps ops) cwd base host path
  · have hnone : mgrGet (mgrLoad sites) d = none := by
      unfold mgrGet
      rw [hv, mapLookup_mgrLoad]
      rw [findLastEnabled_eq_none d sites
        (fun s hs hc => by
          have := hdis s hs hc.2
          rw [this] at hc
          exact Bool.false_ne_true hc.1)]
    unfold serveStatus
    rw [hnone]

/-- C3 amended witness: with the demo disabled registry loaded, the
request for `d.example` is answered 404, and no request against that
map is answered 503. -/
theorem resolver_never_503_witness :
    serveStatus (runOps [.load disabledRegistry]) "/" "/srv" "x.example" "/" ≠ 503
    ∧ serveStatus (mgrLoad disabledRegistry) "/" "/srv" "d.example" "/" = 404 :=
  resolver_never_503 [.load disabledRegistry] disabledRegistry
    "/" "/srv" "x.example" "/" "d.example" "/" (by decide) (by decide)

/-- C9 counterexample: the claim quantifies over every domain, but
`Get` truncates its argument at the first `:` (port stripping), so for
a store holding an enabled site with domain `a:b`, `Get("a:b")` looks up
`a` and returns nil even though an enabled site with that exact domain
exists after `Load`. -/
theorem mgrGet_colon_domain_mismatch :
    (∃ s ∈ colonRegistry, s.enabled = true ∧ s.domain = "a:b")
    ∧ mgrGet (mgrLoad colonRegistry) "a:b" = none := by
  refine ⟨?_, by decide⟩
  exact ⟨colonRegistry.head (by decide), by decide, by decide, by decide⟩

/-- C9 amended: for every store list and every domain `d` unaffected by
port stripping (no `:`), after `Load` the resolver returns a snapshot
for `d` exactly when the store holds an enabled site with domain `d`,
and the returned snapshot carries the id, username, domain, index and
enabled flag of such a site (the last one in store order when several
share the domain). -/
theorem mgrGet_after_load (sites : List Site) (d : String)
    (hv : stripPort d = d) :
    ((mgrGet (mgrLoad sites) d).isSome = true
      ↔ ∃ s ∈ sites, s.enabled = true ∧ s.domain = d)
    ∧ (∀ snap, mgrGet (mgrLoad sites) d = some snap →
        ∃ s ∈ sites, s.enabled = true ∧ s.domain = d ∧ snap = snapOf s) := by
  have hbase : mgrGet (mgrLoad sites) d
      = match findLastEnabled d sites with
        | some s => some (snapOf s)
        | none => none := by
    unfold mgrGet
    rw [hv, mapLookup_mgrLoad]
  constructor
  · rw [hbase]
    cases hfind : findLastEnabled d sites with
    | some s =>
      obtain ⟨hmem, he, hd⟩ := findLastEnabled_some d sites s hfind
      simp only [Option.isSome_some, true_iff]
      exact ⟨s, hmem, he, hd⟩
    | none =>
      simp only [Option.isSome_none, Bool.false_eq_true, false_iff]
      rintro ⟨s, hmem, he, hd⟩
      have := findLastEnabled_isSome d sites s hmem he hd
      rw [hfind] at this
      simp at this
  · intro snap hsnap
    rw [hbase] at hsnap
    cases hfind : findLastEnabled d sites with
    | some s =>
      rw [hfind] at hsnap
      obtain ⟨hmem, he, hd⟩ := findLastEnabled_some d sites s hfind
      injection hsnap with hsnap
      exact ⟨s, hmem, he, hd, hsnap.symm⟩
    | none => rw [hfind] at hsnap; simp at hsnap

/-- C9 amended witness: for the demo enabled registry and the colon-free
domain `blog.example`, `Get` returns a snapshot after `Load`. -/
theorem mgrGet_after_load_witness :
    (mgrGet (mgrLoad enabledRegistry) "blog.example").isSome = true :=
  (mgrGet_after_load enabledRegistry "blog.example" (by decide)).1.mpr (by decide)

/-- C4 counterexample: the claim says `isPathSafe` rejects exactly the
paths whose normalized join with the root falls outside the root.  The
check is a bare `strings.HasPrefix` with no separator appended, so the
request path `/../blog-evil/secret.txt` against root
`/srv/sites/u/blog` joins to the sibling `/srv/sites/u/blog-evil/...`,
which lies outside the root yet is accepted. -/
theorem isPathSafe_sibling_accepted :
    goJoin2 "/srv/sites/u/blog" "/../blog-evil/secret.txt"
      = "/srv/sites/u/blog-evil/secret.txt"
    ∧ isPathSafe "/" "/srv/sites/u/blog"
        (goJoin2 "/srv/sites/u/blog" "/../blog-evil/secret.txt") = true
    ∧ containedIn "/srv/sites/u/blog"
        (goJoin2 "/srv/sites/u/blog" "/../blog-evil/secret.txt") = false :=
  ⟨rfl, rfl, rfl⟩

/-- C4 amended: `isPathSafe` accepts every file path contained in the
root (it never rejects a path inside the root, so every 403 is a path
outside the root), but the string-prefix check without a trailing
separator also accepts some paths outside the root — those whose
absolute form extends the root string without a separator, as in the
counterexample. -/
theorem isPathSafe_accepts_contained (cwd root file : String)
    (hr : goIsAbs root = true) (hf : goIsAbs file = true)
    (hc : containedIn root file = true) :
    isPathSafe cwd root file = true := by
  unfold containedIn at hc
  rw [Bool.and_eq_true] at hc
  have hpre : (cleanParts root).2 <+: (cleanParts file).2 :=
    List.isPrefixOf_iff_prefix.mp hc.2
  obtain ⟨rest, hrest⟩ := hpre
  obtain ⟨t, ht⟩ := joinComps_append_exists (cleanParts root).2 rest
  unfold isPathSafe goAbs
  rw [if_pos hr, if_pos hf]
  apply List.isPrefixOf_iff_prefix.mpr
  have hroot1 : (cleanParts root).1 = true := hr
  have hfile1 : (cleanParts file).1 = true := hf
  unfold goClean renderPath
  rw [hroot1, hfile1]
  simp only [if_true]
  rw [← hrest, ht, ← String.append_assoc "/" (joinComps (cleanParts root).2) t]
  rw [string_append_toList]
  exact List.prefix_append _ _

/-- C4 amended witness: a benign request path inside the root is
accepted by the containment check. -/
theorem isPathSafe_accepts_contained_witness :
    isPathSafe "/" "/srv/sites/u/blog" "/srv/sites/u/blog/css/site.css" = true :=
  isPathSafe_accepts_contained "/" "/srv/sites/u/blog" "/srv/sites/u/blog/css/site.css"
    (by decide) (by decide) (by decide)

/-- C6: a successful `CheckoutCheckpoint` leaves the checkpoints list
exactly as loaded (no record added or removed), keeps the site id and
username, leaves the archive files untouched, and changes only the
current pointer (now the requested id), `updated_at` (bumped again by
the trailing `StorageRecount`) and the storage-usage cache. -/
theorem checkoutCheckpoint_frame (baseDir : String) (fs : CheckpointFs)
    (username siteID checkpointID targetDir : String) (now now2 : Nat)
    (h : (checkoutCheckpoint baseDir fs username siteID checkpointID
            targetDir now now2).2 = none) :
    ∃ md',
      (checkoutCheckpoint baseDir fs username siteID checkpointID
          targetDir now now2).1.metadata = some md'
      ∧ md'.checkpoints = (loadSiteMetadata fs username siteID now).checkpoints
      ∧ md'.current = checkpointID
      ∧ md'.siteId = (loadSiteMetadata fs username siteID now).siteId
      ∧ md'.username = (loadSiteMetadata fs username siteID now).username
      ∧ md'.updatedAt = now2
      ∧ (checkoutCheckpoint baseDir fs username siteID checkpointID
            targetDir now now2).1.archives = fs.archives := by
  simp only [checkoutCheckpoint] at h ⊢
  cases han : (loadSiteMetadata fs username siteID now).checkpoints.any
      (fun cp => cp.id == checkpointID) with
  | false =>
    try rw [han] at h
    simp at h
  | true =>
    try rw [han] at h
    try rw [han]
    rw [if_neg (by decide : ¬ ((!true) = true))] at h ⊢
    cases hfind : fs.archives.find? (fun a =>
        a.path == getCheckpointPath baseDir username siteID checkpointID) with
    | none =>
      try rw [hfind] at h
      simp at h
    | some af =>
      try rw [hfind] at h
      try rw [hfind]
      cases hex : extractTarGzSimple targetDir af.entries with
      | error e =>
        try simp only [hex] at h
        simp at h
      | ok writes =>
        try simp only [hex] at h
        try simp only [hex]
        exact ⟨_, rfl, rfl, rfl, rfl, rfl, rfl, rfl⟩

/-- C6 witness: on the demo state, checking out `c1` succeeds, the
checkpoints list is unchanged and `current` becomes `c1`. -/
theorem checkoutCheckpoint_frame_witness :
    ∃ md',
      (checkoutCheckpoint "/base" demoCheckpointFs "u" "blog" "c1"
          "/live" 5 6).1.metadata = some md'
      ∧ md'.checkpoints = (loadSiteMetadata demoCheckpointFs "u" "blog" 5).checkpoints
      ∧ md'.current = "c1"
      ∧ md'.siteId = (loadSiteMetadata demoCheckpointFs "u" "blog" 5).siteId
      ∧ md'.username = (loadSiteMetadata demoCheckpointFs "u" "blog" 5).username
      ∧ md'.updatedAt = 6
      ∧ (checkoutCheckpoint "/base" demoCheckpointFs "u" "blog" "c1"
            "/live" 5 6).1.archives = demoCheckpointFs.archives :=
  checkoutCheckpoint_frame "/base" demoCheckpointFs "u" "blog" "c1" "/live" 5 6 (by decide)

end Pages
